import Mathlib

set_option maxHeartbeats 1600000
set_option maxRecDepth 8000

unseal Rat.add Rat.mul Rat.sub Rat.inv Rat.ofScientific

/-!
Shallow embedding of the Radau2A IRK integrator of src/src/radau2a.c,
together with the SolverOptions defaults of src/generic/opencl/solver.hpp.

Scalars are modelled as exact rationals.  The external collaborators of the
integrator (the problem hook dydt / eval_jacob and the LAPACK routines
dgetrf / zgetrf / dgetrs / zgetrs) are opaque callbacks in the C code and are
modelled as oracle function parameters, as are the transcendental library
functions sqrt and pow (the latter only where the exponent is non-integral).
Vectors are lists of rationals; matrices are flattened column-major lists,
exactly as the source stores them.
-/

namespace Radau2a

abbrev V := List ℚ
abbrev Mat := List ℚ
abbrev CMat := List (ℚ × ℚ)

/-- Compile-time problem configuration: `NN`, `ATOL`, `RTOL` macros of the source. -/
structure Cfg where
  n : ℕ
  atol : ℚ
  rtol : ℚ
deriving DecidableEq

/-- The external collaborators of radau2a.c, as oracles: the problem hook
(`dydt`, `eval_jacob`), the LAPACK contract (`dgetrf`/`zgetrf` return the
factored matrix, the pivot array and `info`; `dgetrs`/`zgetrs` return the
solution and `info`), the libm functions `sqrt` and `pow`, and `junk`, the
unspecified value sitting one past the end of the stack array `sums[UNROLL]`
in `RK_ErrorNorm` (read out of bounds by the final accumulation loop). -/
structure Ors where
  dydt : ℚ → ℚ → V → V
  evalJacob : ℚ → ℚ → V → Mat
  dgetrf : Mat → Mat × List ℤ × ℤ
  zgetrf : CMat → CMat × List ℤ × ℤ
  dgetrs : Mat → List ℤ → V → V × ℤ
  zgetrs : CMat → List ℤ → CMat → CMat × ℤ
  sqrtO : ℚ → ℚ
  powO : ℚ → ℚ → ℚ
  junk : ℚ

/-! ## Solver macros (lines 22-35 of radau2a.c) and DBL_EPSILON -/

/-- `EPS` = `DBL_EPSILON` (see src/generic/solver.hpp): `Roundoff` of radau2a.c. -/
def EPS : ℚ := 1 / 2 ^ 52

def Max_no_steps : ℕ := 200000
def NewtonMaxit : ℕ := 8
def StartNewton : Bool := true
def FacMin : ℚ := 0.2
def FacMax : ℚ := 8
def FacSafe : ℚ := 0.9
def FacRej : ℚ := 0.1
def ThetaMin : ℚ := 0.001
def NewtonTol : ℚ := 0.03
def Qmin : ℚ := 1.0
def Qmax : ℚ := 1.2
def UNROLL : ℕ := 8
def Hmin : ℚ := 0

/-! ## Radau2A coefficient tables (lines 52-182, non-SDIRK branch) -/

def rkA : List (List ℚ) := [
  [1.968154772236604258683861429918299e-1,
   -6.55354258501983881085227825696087e-2,
   2.377097434822015242040823210718965e-2],
  [3.944243147390872769974116714584975e-1,
   2.920734116652284630205027458970589e-1,
   -4.154875212599793019818600988496743e-2],
  [3.764030627004672750500754423692808e-1,
   5.124858261884216138388134465196080e-1,
   1.111111111111111111111111111111111e-1]]

def rkB : List ℚ := [
  3.764030627004672750500754423692808e-1,
  5.124858261884216138388134465196080e-1,
  1.111111111111111111111111111111111e-1]

def rkC : List ℚ := [
  1.550510257216821901802715925294109e-1,
  6.449489742783178098197284074705891e-1,
  1.0]

def rkE : List ℚ := [
  0.05,
  -10.04880939982741556246032950764708 * 0.05,
  1.382142733160748895793662840980412 * 0.05,
  -0.3333333333333333333333333333333333 * 0.05]

def rkGamma : ℚ := 3.637834252744495732208418513577775
def rkAlpha : ℚ := 2.681082873627752133895790743211112
def rkBeta : ℚ := 3.050430199247410569426377624787569

def rkT : List (List ℚ) := [
  [9.443876248897524148749007950641664e-2,
   -1.412552950209542084279903838077973e-1,
   -3.00291941051474244918611170890539e-2],
  [2.502131229653333113765090675125018e-1,
   2.041293522937999319959908102983381e-1,
   3.829421127572619377954382335998733e-1],
  [1.0, 1.0, 0.0]]

def rkTinv : List (List ℚ) := [
  [4.178718591551904727346462658512057,
   3.27682820761062387082533272429617e-1,
   5.233764454994495480399309159089876e-1],
  [-4.178718591551904727346462658512057,
   -3.27682820761062387082533272429617e-1,
   4.766235545005504519600690840910124e-1],
  [-5.02872634945786875951247343139544e-1,
   2.571926949855605429186785353601676,
   -5.960392048282249249688219110993024e-1]]

def rkTinvAinv : List (List ℚ) := [
  [1.520148562492775501049204957366528e+1,
   1.192055789400527921212348994770778,
   1.903956760517560343018332287285119],
  [-9.669512977505946748632625374449567,
   -8.724028436822336183071773193986487,
   3.096043239482439656981667712714881],
  [-1.409513259499574544876303981551774e+1,
   5.895975725255405108079130152868952,
   -1.441236197545344702389881889085515e-1]]

def rkAinvT : List (List ℚ) := [
  [0.3435525649691961614912493915818282,
   -0.4703191128473198422370558694426832,
   0.3503786597113668965366406634269080],
  [0.9102338692094599309122768354288852,
   1.715425895757991796035292755937326,
   0.4040171993145015239277111187301784],
  [3.637834252744495732208418513577775,
   2.681082873627752133895790743211112,
   -3.050430199247410569426377624787569]]

def rkELO : ℚ := 4

/-! ## Vector helpers -/

/-- Read component `i` of a vector (a C array access `v[i]`). -/
def vnth (v : V) (i : ℕ) : ℚ := v.getD i 0

/-- Build a vector of length `n` from a component formula (a C loop writing `v[i]`). -/
def vmk (n : ℕ) (f : ℕ → ℚ) : V := (List.range n).map f

def vzero (n : ℕ) : V := vmk n (fun _ => 0)

/-- Entry `(i, j)` of a 3x3 coefficient table. -/
def tbl (m : List (List ℚ)) (i j : ℕ) : ℚ := (m.getD i []).getD j 0

/-! ## scale / scale_init (lines 38-50) -/

/-- `scale(y0, y, sc)`: `sc[i] = 1.0 / (ATOL + fmax(fabs(y0[i]), fabs(y[i])) * RTOL)`. -/
def scale (cfg : Cfg) (y0 y : V) : V :=
  vmk cfg.n (fun i => 1 / (cfg.atol + max |vnth y0 i| |vnth y i| * cfg.rtol))

/-- `scale_init(y0, sc)`: `sc[i] = 1.0 / (ATOL + fabs(y0[i]) * RTOL)`. -/
def scale_init (cfg : Cfg) (y0 : V) : V :=
  vmk cfg.n (fun i => 1 / (cfg.atol + |vnth y0 i| * cfg.rtol))

/-! ## RK_Decomp (lines 200-220) -/

/-- `E1 = -Jac` with `rkGamma/H` added on the diagonal (column-major, `k = i + j*NN`). -/
def mkE1 (cfg : Cfg) (H : ℚ) (A : Mat) : Mat :=
  (List.range (cfg.n * cfg.n)).map (fun k =>
    -A.getD k 0 + if k % cfg.n = k / cfg.n then rkGamma / H else 0)

/-- `E2 = -Jac + 0*I` with `rkAlpha/H + I*rkBeta/H` added on the diagonal. -/
def mkE2 (cfg : Cfg) (H : ℚ) (A : Mat) : CMat :=
  (List.range (cfg.n * cfg.n)).map (fun k =>
    (-A.getD k 0 + (if k % cfg.n = k / cfg.n then rkAlpha / H else 0),
     if k % cfg.n = k / cfg.n then rkBeta / H else 0))

/-- `RK_Decomp`: build E1 and E2 and LU-factor both; on a real-factor failure
the complex factorization is not attempted (the source returns at once). -/
def RK_Decomp (os : Ors) (cfg : Cfg) (H : ℚ) (A : Mat) :
    (Mat × List ℤ) × (CMat × List ℤ) × ℤ :=
  let r1 := os.dgetrf (mkE1 cfg H A)
  if r1.2.2 ≠ 0 then ((r1.1, r1.2.1), (mkE2 cfg H A, []), r1.2.2)
  else
    let r2 := os.zgetrf (mkE2 cfg H A)
    ((r1.1, r1.2.1), (r2.1, r2.2.1), r2.2.2)

/-! ## RK_Make_Interpolate / RK_Interpolate (lines 222-248) -/

/-- `RK_Make_Interpolate(Z1, Z2, Z3, CONT)` (quadratic through the stages). -/
def RK_Make_Interpolate (cfg : Cfg) (Z1 Z2 Z3 : V) : V :=
  let c0 := rkC.getD 0 0
  let c1 := rkC.getD 1 0
  let c2 := rkC.getD 2 0
  let den := (c2 - c1) * (c1 - c0) * (c0 - c2)
  vmk cfg.n (fun i =>
      ((-c2 * c2 * c1 * vnth Z1 i + vnth Z3 i * c1 * c0 * c0
        + c1 * c1 * c2 * vnth Z1 i - c1 * c1 * c0 * vnth Z3 i
        + c2 * c2 * c0 * vnth Z2 i - vnth Z2 i * c2 * c0 * c0) / den) - vnth Z3 i)
    ++ vmk cfg.n (fun i =>
      -(c0 * c0 * (vnth Z3 i - vnth Z2 i) + c1 * c1 * (vnth Z1 i - vnth Z3 i)
        + c2 * c2 * (vnth Z2 i - vnth Z1 i)) / den)
    ++ vmk cfg.n (fun i =>
      (c0 * (vnth Z3 i - vnth Z2 i) + c1 * (vnth Z1 i - vnth Z3 i)
        + c2 * (vnth Z2 i - vnth Z1 i)) / den)

/-- `RK_Interpolate(H, Hold, Z1, Z2, Z3, CONT)`.  Note the third line of the
source uses `x2` as the outer factor and `x3` as the inner one. -/
def RK_Interpolate (cfg : Cfg) (H Hold : ℚ) (CONT : V) : V × V × V :=
  let r := H / Hold
  let x1 := 1.0 + rkC.getD 0 0 * r
  let x2 := 1.0 + rkC.getD 1 0 * r
  let x3 := 1.0 + rkC.getD 2 0 * r
  (vmk cfg.n (fun i =>
      vnth CONT i + x1 * (vnth CONT (cfg.n + i) + x1 * vnth CONT (cfg.n + cfg.n + i))),
   vmk cfg.n (fun i =>
      vnth CONT i + x2 * (vnth CONT (cfg.n + i) + x2 * vnth CONT (cfg.n + cfg.n + i))),
   vmk cfg.n (fun i =>
      vnth CONT i + x2 * (vnth CONT (cfg.n + i) + x3 * vnth CONT (cfg.n + cfg.n + i))))

/-! ## WADD / DAXPY3 / RK_PrepareRHS (lines 251-299) -/

def WADD (cfg : Cfg) (X Y : V) : V := vmk cfg.n (fun i => vnth X i + vnth Y i)

def DAXPY3 (cfg : Cfg) (DA1 DA2 DA3 : ℚ) (DX DY1 DY2 DY3 : V) : V × V × V :=
  (vmk cfg.n (fun i => vnth DY1 i + DA1 * vnth DX i),
   vmk cfg.n (fun i => vnth DY2 i + DA2 * vnth DX i),
   vmk cfg.n (fun i => vnth DY3 i + DA3 * vnth DX i))

/-- `RK_PrepareRHS`: `R = Z - h*A*F` built from three callbacks into `dydt`.
The `F0` parameter of the C signature is unused by the body and omitted. -/
def RK_PrepareRHS (os : Ors) (cfg : Cfg) (t pr H : ℚ) (Y Z1 Z2 Z3 : V) : V × V × V :=
  let F₁ := os.dydt (t + rkC.getD 0 0 * H) pr (WADD cfg Y Z1)
  let R₁ := DAXPY3 cfg (-H * tbl rkA 0 0) (-H * tbl rkA 1 0) (-H * tbl rkA 2 0) F₁ Z1 Z2 Z3
  let F₂ := os.dydt (t + rkC.getD 1 0 * H) pr (WADD cfg Y Z2)
  let R₂ := DAXPY3 cfg (-H * tbl rkA 0 1) (-H * tbl rkA 1 1) (-H * tbl rkA 2 1) F₂ R₁.1 R₁.2.1 R₁.2.2
  let F₃ := os.dydt (t + rkC.getD 2 0 * H) pr (WADD cfg Y Z3)
  DAXPY3 cfg (-H * tbl rkA 0 2) (-H * tbl rkA 1 2) (-H * tbl rkA 2 2) F₃ R₂.1 R₂.2.1 R₂.2.2

/-! ## RK_Solve (lines 301-347) -/

/-- `RK_Solve`: `(1/h) Tinv Ainv` mix, real solve on R1, complex solve on
`R2 + i R3`, then the `T` mix.  Returns `none` when a back-substitution
reports a non-zero `info` (the source prints and calls `exit(-1)` there). -/
def RK_Solve (os : Ors) (cfg : Cfg) (H : ℚ) (E1 : Mat) (ip1 : List ℤ)
    (E2 : CMat) (ip2 : List ℤ) (R1 R2 R3 : V) : Option (V × V × V) :=
  let S1 := vmk cfg.n (fun i =>
    tbl rkTinvAinv 0 0 * (vnth R1 i / H) + tbl rkTinvAinv 0 1 * (vnth R2 i / H)
      + tbl rkTinvAinv 0 2 * (vnth R3 i / H))
  let S2 := vmk cfg.n (fun i =>
    tbl rkTinvAinv 1 0 * (vnth R1 i / H) + tbl rkTinvAinv 1 1 * (vnth R2 i / H)
      + tbl rkTinvAinv 1 2 * (vnth R3 i / H))
  let S3 := vmk cfg.n (fun i =>
    tbl rkTinvAinv 2 0 * (vnth R1 i / H) + tbl rkTinvAinv 2 1 * (vnth R2 i / H)
      + tbl rkTinvAinv 2 2 * (vnth R3 i / H))
  let q1 := os.dgetrs E1 ip1 S1
  if q1.2 ≠ 0 then none
  else
    let temp : CMat := (List.range cfg.n).map (fun i => (vnth S2 i, vnth S3 i))
    let q2 := os.zgetrs E2 ip2 temp
    if q2.2 ≠ 0 then none
    else
      let T1 := q1.1
      let T2 := vmk cfg.n (fun i => (q2.1.getD i (0, 0)).1)
      let T3 := vmk cfg.n (fun i => (q2.1.getD i (0, 0)).2)
      some
        (vmk cfg.n (fun i =>
           tbl rkT 0 0 * vnth T1 i + tbl rkT 0 1 * vnth T2 i + tbl rkT 0 2 * vnth T3 i),
         vmk cfg.n (fun i =>
           tbl rkT 1 0 * vnth T1 i + tbl rkT 1 1 * vnth T2 i + tbl rkT 1 2 * vnth T3 i),
         vmk cfg.n (fun i =>
           tbl rkT 2 0 * vnth T1 i + tbl rkT 2 1 * vnth T2 i + tbl rkT 2 2 * vnth T3 i))

/-! ## RK_ErrorNorm (lines 349-375) -/

/-- The summand `scale[k]*scale[k]*DY[k]*DY[k]` accumulated by both loops of
`RK_ErrorNorm`. -/
def wsq (sc DY : V) (k : ℕ) : ℚ := vnth sc k * vnth sc k * vnth DY k * vnth DY k

/-- The 8-slot partial-sum array `sums[UNROLL]` after the mod-part loop and the
unrolled loop: slot `j` holds the mod-part contribution (index `j < NN % UNROLL`)
plus every strided contribution `(scale*DY)^2` at index `start + UNROLL*b + j`. -/
def errSums (cfg : Cfg) (sc DY : V) : List ℚ :=
  let start := cfg.n % UNROLL
  let blocks := (cfg.n - start) / UNROLL
  (List.range UNROLL).map (fun j =>
    (if j < start then wsq sc DY j else 0)
    + ((List.range blocks).map (fun b => wsq sc DY (start + UNROLL * b + j))).sum)

/-- The index sequence of the final accumulation loop of `RK_ErrorNorm`:
`for (int i = 0; i <= UNROLL; ++i)` — note the `<=`. -/
def sumLoopIdx : List ℕ := List.range (UNROLL + 1)

/-- The accumulated `sum` of `RK_ErrorNorm`: the final loop folds over
`sumLoopIdx`; the read of `sums[UNROLL]` falls outside the array and yields
the unspecified stack value `os.junk`. -/
def errNormSum (os : Ors) (cfg : Cfg) (sc DY : V) : ℚ :=
  sumLoopIdx.foldl (fun s i => s + (errSums cfg sc DY).getD i os.junk) 0

/-- `RK_ErrorNorm(scale, DY) = fmax(sqrt(sum/NN), 1e-10)`. -/
def RK_ErrorNorm (os : Ors) (cfg : Cfg) (sc DY : V) : ℚ :=
  max (os.sqrtO (errNormSum os cfg sc DY / (cfg.n : ℚ))) 1e-10

/-! ## RK_ErrorEstimate (lines 377-418) -/

/-- `RK_ErrorEstimate`, with the second-chance re-estimate on
`Err >= 1 && (FirstStep || Reject)`.  `none` models the `exit(-1)` taken when
a back-substitution fails. -/
def RK_ErrorEstimate (os : Ors) (cfg : Cfg) (H t pr : ℚ) (Y F0 Z1 Z2 Z3 sc : V)
    (E1 : Mat) (ip1 : List ℤ) (FirstStep Reject : Bool) : Option ℚ :=
  let HrkE1 := rkE.getD 1 0 / H
  let HrkE2 := rkE.getD 2 0 / H
  let HrkE3 := rkE.getD 3 0 / H
  let F2 := vmk cfg.n (fun i => HrkE1 * vnth Z1 i + HrkE2 * vnth Z2 i + HrkE3 * vnth Z3 i)
  let TMP := vmk cfg.n (fun i => rkE.getD 0 0 * vnth F0 i + vnth F2 i)
  let q := os.dgetrs E1 ip1 TMP
  if q.2 ≠ 0 then none
  else
    let Err := RK_ErrorNorm os cfg sc q.1
    if 1 ≤ Err ∧ (FirstStep = true ∨ Reject = true) then
      let TMP2 := vmk cfg.n (fun i => vnth q.1 i + vnth Y i)
      let F1 := os.dydt t pr TMP2
      let TMP3 := vmk cfg.n (fun i => vnth F1 i + vnth F2 i)
      let q2 := os.dgetrs E1 ip1 TMP3
      if q2.2 ≠ 0 then none
      else some (RK_ErrorNorm os cfg sc q2.1)
    else some Err

/-! ## The simplified-Newton loop of `integrate` (lines 520-566) -/

/-- Result of the Newton loop.  `conv` carries the converged stage increments,
the final `NewtonRate`, `NewtonIncrement`, `Theta`, and the value of
`NewtonIter` at the convergence break; the two aborts carry the step-reduction
`Fac` and the final `NewtonRate`; `fatalIter` is the early `return` at
`NewtonIter == NewtonMaxit-1` (which writes `y[0] = logf(-1)`); `solveErr` is
the `exit(-1)` inside `RK_Solve` on a failed back-substitution. -/
inductive NRes where
  | conv (Z1 Z2 Z3 : V) (rate incr theta : ℚ) (iters : ℕ)
  | abortTheta (theta Fac rate : ℚ) (iters : ℕ)
  | abortPred (Fac rate : ℚ) (iters : ℕ)
  | fatalIter
  | solveErr
deriving DecidableEq

/-- Number of Newton iterations performed (the body entered `iters+1` times
when it broke at iteration index `iters`; `fatalIter` happens at index
`NewtonMaxit - 1`, i.e. after `NewtonMaxit` executions of the body). -/
def itersOf : NRes → ℕ
  | .conv _ _ _ _ _ _ k => k + 1
  | .abortTheta _ _ _ k => k + 1
  | .abortPred _ _ k => k + 1
  | .fatalIter => NewtonMaxit
  | .solveErr => NewtonMaxit

/-- One Newton iteration: residual, solve, and the `NewtonIncrement`
`sqrt((d1²+d2²+d3²)/3)`.  `none` models the `exit(-1)` of `RK_Solve`. -/
def newtonIncrCalc (os : Ors) (cfg : Cfg) (t pr H : ℚ) (y sc : V) (E1 : Mat)
    (ip1 : List ℤ) (E2 : CMat) (ip2 : List ℤ) (Z1 Z2 Z3 : V) :
    Option (V × V × V × ℚ) :=
  let R := RK_PrepareRHS os cfg t pr H y Z1 Z2 Z3
  match RK_Solve os cfg H E1 ip1 E2 ip2 R.1 R.2.1 R.2.2 with
  | none => none
  | some (DZ1, DZ2, DZ3) =>
    let d1 := RK_ErrorNorm os cfg sc DZ1
    let d2 := RK_ErrorNorm os cfg sc DZ2
    let d3 := RK_ErrorNorm os cfg sc DZ3
    some (DZ1, DZ2, DZ3, os.sqrtO ((d1 * d1 + d2 * d2 + d3 * d3) / 3.0))

/-- The convergence-control gate of one Newton iteration (lines 527-547):
`Theta = ThetaMin` at iteration 0; at later iterations
`Theta = NewtonIncrement / NewtonIncrementOld`, aborting when `Theta >= 0.99`
or when the predicted end error is at least `NewtonTol`. -/
inductive Gate where
  | go (theta rate : ℚ)
  | aTheta (theta : ℚ)
  | aPred (Fac rate : ℚ)
deriving DecidableEq

def newtonGate (os : Ors) (incr incrOld rate : ℚ) (iter : ℕ) : Gate :=
  if 0 < iter then
    let theta := incr / incrOld
    if theta < 0.99 then
      let rate' := theta / (1.0 - theta)
      if iter < NewtonMaxit then
        let predErr := incr * theta ^ (NewtonMaxit - iter - 1) / (1.0 - theta)
        if NewtonTol ≤ predErr then
          .aPred (0.8 * os.powO (min 10.0 (predErr / NewtonTol))
                    (-1.0 / ((NewtonMaxit - iter : ℕ) : ℚ))) rate'
        else .go theta rate'
      else .go theta rate'
    else .aTheta theta
  else .go ThetaMin rate

/-- The Newton loop.  `fuel` is `NewtonMaxit - iter`; `integrate` enters with
`iter = 0`, `incrOld = 0`, `Fac = 0.5` and the carried-over `NewtonRate`.
The `fuel = 0` case is unreachable (the `NewtonIter == NewtonMaxit-1` early
return fires first) and is mapped to `fatalIter`. -/
def newtonLoop (os : Ors) (cfg : Cfg) (t pr H : ℚ) (y sc : V) (E1 : Mat)
    (ip1 : List ℤ) (E2 : CMat) (ip2 : List ℤ) :
    ℕ → V → V → V → ℚ → ℚ → ℚ → ℕ → NRes
  | 0, _, _, _, _, _, _, _ => .fatalIter
  | fuel + 1, Z1, Z2, Z3, incrOld, Fac, rate, iter =>
    match newtonIncrCalc os cfg t pr H y sc E1 ip1 E2 ip2 Z1 Z2 Z3 with
    | none => .solveErr
    | some (DZ1, DZ2, DZ3, incr) =>
      match newtonGate os incr incrOld rate iter with
      | .aTheta th => .abortTheta th Fac rate iter
      | .aPred fac rate' => .abortPred fac rate' iter
      | .go theta rate' =>
        let incrOld' := max incr EPS
        let Z1' := vmk cfg.n (fun i => vnth Z1 i - vnth DZ1 i)
        let Z2' := vmk cfg.n (fun i => vnth Z2 i - vnth DZ2 i)
        let Z3' := vmk cfg.n (fun i => vnth Z3 i - vnth DZ3 i)
        if rate' * incr ≤ NewtonTol then .conv Z1' Z2' Z3' rate' incr theta iter
        else if iter = NewtonMaxit - 1 then .fatalIter
        else newtonLoop os cfg t pr H y sc E1 ip1 E2 ip2 fuel Z1' Z2' Z3' incrOld' Fac rate' (iter + 1)

/-! ## The `integrate` driver state (lines 424-464) -/

/-- The mutable locals of `integrate` that live across iterations of the
`while` loop, plus two observer fields: `Hlu` and `Alu` record the step size
and the Jacobian at the most recent successful `RK_Decomp`, so that the
LU-reuse discipline can be stated. -/
structure St where
  t : ℚ
  H : ℚ
  Hold : ℚ
  Hacc : ℚ
  ErrOld : ℚ
  NewtonRate : ℚ
  Reject : Bool
  FirstStep : Bool
  SkipJac : Bool
  SkipLU : Bool
  y : V
  y0 : V
  sc : V
  F0 : V
  A : Mat
  E1 : Mat
  ip1 : List ℤ
  E2 : CMat
  ip2 : List ℤ
  Z1 : V
  Z2 : V
  Z3 : V
  CONT : V
  Nconsecutive : ℕ
  Nsteps : ℕ
  Hlu : ℚ
  Alu : Mat
deriving DecidableEq

/-- `y[0] = logf(-1)` writes a NaN into the first component and leaves the
rest of the state vector untouched; `none` marks the NaN. -/
def writeNaN0 : V → List (Option ℚ)
  | [] => []
  | _ :: rest => none :: rest.map some

/-- Reason of an early `return` from `integrate` (both write `y[0] = logf(-1)`). -/
inductive FailR where
  | luF
  | newtonF
deriving DecidableEq

/-- Reason of a process termination `exit(-1)` inside `integrate`. -/
inductive ExitR where
  | maxSteps
  | hUnder
  | backSub
deriving DecidableEq

/-- Observer data attached to an accepted step: the step size committed at
`t += H`, the final Newton `Theta`, the ratio `Hnew/H`, whether the
end-of-interval contraction `H = t_end - t` fired, and the Newton iteration
index at convergence. -/
structure AccInfo where
  hUsed : ℚ
  theta : ℚ
  hq : ℚ
  endp : Bool
  nIter : ℕ
deriving DecidableEq

/-- Outcome tag of one `while`-loop iteration that falls through to the next
iteration.  `newtonRetry` records whether the retry came from the
`Theta >= 0.99` abort and the `Fac` used to shrink `H`. -/
inductive Outc where
  | acc (inf : AccInfo)
  | rej
  | luRetry
  | newtonRetry (thAbort : Bool) (fac : ℚ)
deriving DecidableEq

/-- Result of one iteration of the `while` loop: fall through (`next`), an
early `return` with `y[0] = NaN` (`retNaN`), or `exit(-1)` (`exitProc`). -/
inductive IterRes where
  | next (st : St) (o : Outc)
  | retNaN (yout : List (Option ℚ)) (r : FailR)
  | exitProc (r : ExitR)
deriving DecidableEq

/-! ## One iteration of the `while` loop (lines 465-703) -/

/-- Lines 466-493: the `dydt` refresh, the Jacobian/LU rebuild unless
`SkipLU`, and the LU-failure retry ladder (5 consecutive failures abort the
IVP with `y[0] = logf(-1)`).  On success returns the updated state. -/
def luPhase (os : Ors) (cfg : Cfg) (pr : ℚ) (st : St) (F0 : V) : St ⊕ IterRes :=
  if st.SkipLU then .inl { st with F0 := F0 }
  else
    let A := if st.SkipJac then st.A else os.evalJacob st.t pr st.y
    let d := RK_Decomp os cfg st.H A
    if d.2.2 ≠ 0 then
      if 5 ≤ st.Nconsecutive + 1 then .inr (.retNaN (writeNaN0 st.y) .luF)
      else .inr (.next { st with F0 := F0, A := A, Nconsecutive := st.Nconsecutive + 1,
                                 H := st.H * 0.5, Reject := true, SkipJac := true,
                                 SkipLU := false } .luRetry)
    else
      .inl { st with F0 := F0, A := A, E1 := d.1.1, ip1 := d.1.2, E2 := d.2.1.1,
                     ip2 := d.2.1.2, Nconsecutive := 0, Hlu := st.H, Alu := A }
-- On the failure branch the C arrays E1/E2 hold a partially-written factorization,
-- but SkipLU = false forces a refactorization before any later read, so the
-- retry state keeps the previous fields.  Likewise the abort branches of the
-- Newton loop leave the C arrays Z1..Z3 partially updated; those values are
-- overwritten (RK_Interpolate or memset) before any later read, so non-accept
-- outcomes keep the previous Z fields.

/-- `if (!SkipLU) H = Hnew` of line 688, as a function. -/
def hKeep (b : Bool) (hOld hNew : ℚ) : ℚ := if b then hOld else hNew

/-- Lines 647-702: error estimation, the new step size, and accept/reject.
`st1` is the state after the LU phase, `Nst` the incremented step counter,
`rate` and `th` the Newton loop's final `NewtonRate` and `Theta`, `nI` the
`NewtonIter` at the convergence break, `Z1 Z2 Z3` the converged increments. -/
def postAccept (os : Ors) (cfg : Cfg) (pr tEnd : ℚ) (st1 : St) (Nst : ℕ)
    (rate th : ℚ) (nI : ℕ) (Z1 Z2 Z3 : V) : IterRes :=
  match RK_ErrorEstimate os cfg st1.H st1.t pr st1.y st1.F0 Z1 Z2 Z3 st1.sc
      st1.E1 st1.ip1 st1.FirstStep st1.Reject with
  | none => .exitProc .backSub
  | some Err =>
    let Fac := os.powO Err (-1.0 / rkELO) * (1 + 2 * (NewtonMaxit : ℚ))
                 / ((nI : ℚ) + 1 + 2 * (NewtonMaxit : ℚ))
    let Fac := min FacMax (max FacMin Fac)
    let Hnew := Fac * st1.H
    if Err < 1.0 then
      let Hnew :=
        if st1.FirstStep then Hnew
        else
          let FacGus := FacSafe * (st1.H / st1.Hacc) * os.powO (Err * Err / st1.ErrOld) (-0.25)
          let FacGus := min FacMax (max FacMin FacGus)
          min Fac FacGus * st1.H
      let t' := st1.t + st1.H
      let y' := vmk cfg.n (fun i => vnth st1.y i + vnth Z3 i)
      let CONT' := if StartNewton then RK_Make_Interpolate cfg Z1 Z2 Z3 else st1.CONT
      let sc' := scale cfg y' st1.y0
      let Hnew := min (max Hnew Hmin) (tEnd - t')
      let Hnew := if st1.Reject then min Hnew st1.H else Hnew
      let SkipJac' : Bool := decide (nI = 1) || decide (rate ≤ ThetaMin)
      let base : St :=
        { st1 with t := t', Hold := st1.H, Hacc := st1.H, ErrOld := max 0.01 Err,
                   FirstStep := false, Reject := false, SkipJac := SkipJac',
                   y := y', y0 := y', sc := sc', CONT := CONT',
                   Z1 := Z1, Z2 := Z2, Z3 := Z3, Nsteps := Nst, NewtonRate := rate }
      if 0 ≤ t' + Hnew / Qmin - tEnd then
        .next { base with H := tEnd - t' }
          (.acc { hUsed := st1.H, theta := th, hq := Hnew / st1.H, endp := true, nIter := nI })
      else
        let Hq := Hnew / st1.H
        let SkipLU' : Bool := decide (th ≤ ThetaMin) && decide (Qmin ≤ Hq) && decide (Hq ≤ Qmax)
        .next { base with SkipLU := SkipLU', H := hKeep SkipLU' st1.H Hnew }
          (.acc { hUsed := st1.H, theta := th, hq := Hq, endp := false, nIter := nI })
    else
      let H' := if st1.FirstStep || st1.Reject then FacRej * st1.H else Hnew
      .next { st1 with H := H', Reject := true, SkipJac := true, SkipLU := false,
                       Nsteps := Nst, NewtonRate := rate } .rej

/-- Lines 504-510: the Newton starting guess, zero on the first step (and
when `StartNewton` is off), otherwise the extrapolated stages. -/
def predZ (cfg : Cfg) (st1 : St) : V × V × V :=
  if st1.FirstStep || !StartNewton then (vzero cfg.n, vzero cfg.n, vzero cfg.n)
  else RK_Interpolate cfg st1.H st1.Hold st1.CONT

/-- One full iteration of the `while (t + Roundoff < t_end)` body. -/
def loopIter (os : Ors) (cfg : Cfg) (pr tEnd : ℚ) (st : St) : IterRes :=
  let F0 := if st.Reject then st.F0 else os.dydt st.t pr st.y
  match luPhase os cfg pr st F0 with
  | .inr r => r
  | .inl st1 =>
    let Nst := st1.Nsteps + 1
    if Max_no_steps ≤ Nst then .exitProc .maxSteps
    else if 0.1 * |st1.H| ≤ |st1.t| * EPS then .exitProc .hUnder
    else
      let Z := predZ cfg st1
      let rate0 := os.powO (max st1.NewtonRate EPS) 0.8
      match newtonLoop os cfg st1.t pr st1.H st1.y st1.sc st1.E1 st1.ip1 st1.E2 st1.ip2
          NewtonMaxit Z.1 Z.2.1 Z.2.2 0 0.5 rate0 0 with
      | .solveErr => .exitProc .backSub
      | .fatalIter => .retNaN (writeNaN0 st1.y) .newtonF
      | .abortTheta _ fac rate _ =>
        .next { st1 with H := fac * st1.H, Reject := true, SkipJac := true,
                         SkipLU := false, Nsteps := Nst, NewtonRate := rate }
          (.newtonRetry true fac)
      | .abortPred fac rate _ =>
        .next { st1 with H := fac * st1.H, Reject := true, SkipJac := true,
                         SkipLU := false, Nsteps := Nst, NewtonRate := rate }
          (.newtonRetry false fac)
      | .conv Z1' Z2' Z3' rate _incr th nI =>
        postAccept os cfg pr tEnd st1 Nst rate th nI Z1' Z2' Z3'

/-! ## The driver (lines 424-464 and the loop) -/

/-- The locals of `integrate` before the first loop iteration: `H = 5e-7`
(hard-coded at line 431), `NewtonRate = pow(2.0, 1.25)`, `sc` from
`scale_init`, `y0` a copy of `y`, and `A` zero-initialized.  The arrays the
source leaves uninitialized before first use are zero here. -/
def initState (os : Ors) (cfg : Cfg) (tStart : ℚ) (y : V) : St :=
  { t := tStart, H := 5e-7, Hold := 0, Hacc := 0, ErrOld := 0,
    NewtonRate := os.powO 2.0 1.25,
    Reject := false, FirstStep := true, SkipJac := false, SkipLU := false,
    y := y, y0 := y, sc := scale_init cfg y, F0 := vzero cfg.n,
    A := List.replicate (cfg.n * cfg.n) 0, E1 := [], ip1 := [], E2 := [], ip2 := [],
    Z1 := vzero cfg.n, Z2 := vzero cfg.n, Z3 := vzero cfg.n,
    CONT := vzero (3 * cfg.n), Nconsecutive := 0, Nsteps := 0, Hlu := 0, Alu := [] }

/-- Result of running the `while` loop for a bounded number of iterations. -/
inductive RunRes where
  | running (st : St)
  | finished (st : St)
  | retNaN (yout : List (Option ℚ)) (r : FailR)
  | exited (r : ExitR)
deriving DecidableEq

/-- Iterate the loop body up to `k` times, checking the `while` condition
`t + Roundoff < t_end` before each iteration. -/
def runLoop (os : Ors) (cfg : Cfg) (pr tEnd : ℚ) : ℕ → St → RunRes
  | 0, st => .running st
  | k + 1, st =>
    if st.t + EPS < tEnd then
      match loopIter os cfg pr tEnd st with
      | .next st' _ => runLoop os cfg pr tEnd k st'
      | .retNaN yout r => .retNaN yout r
      | .exitProc r => .exited r
    else .finished st

/-- `integrate(t_start, t_end, pr, y)`, fuelled. -/
def integrate (os : Ors) (cfg : Cfg) (tStart tEnd pr : ℚ) (y : V) (fuel : ℕ) : RunRes :=
  runLoop os cfg pr tEnd fuel (initState os cfg tStart y)

/-! ## SolverOptions (src/generic/opencl/solver.hpp, lines 90-109) -/

/-- The constructor defaults of `opencl_solvers::SolverOptions`. -/
structure SolverOptions where
  vectorSize : ℕ
  blockSize : ℕ
  numBlocks : ℤ
  atol : ℚ
  rtol : ℚ
  logging : Bool
  h_init : ℚ
  use_queue : Bool
  order : Char
deriving DecidableEq

def defaultSolverOptions : SolverOptions :=
  { vectorSize := 1, blockSize := 1, numBlocks := -1, atol := 1e-10, rtol := 1e-6,
    logging := false, h_init := 1e-6, use_queue := true, order := 'C' }

/-! ## Concrete scenario instances used for witnesses and counterexamples -/

/-- Problem hooks and solver backends for a trivial one-dimensional IVP with
`f = 0` and `J = 0`: both LU factorizations succeed, back-substitution returns
the right-hand side unchanged, `sqrt` and `pow` are stand-in monotone oracles
(`pow` constantly `9/8`), and the memory past `sums[]` holds `0`. -/
def os0 : Ors :=
  { dydt := fun _ _ _ => [0], evalJacob := fun _ _ _ => [0],
    dgetrf := fun m => (m, [1], 0), zgetrf := fun m => (m, [1], 0),
    dgetrs := fun _ _ b => (b, 0), zgetrs := fun _ _ b => (b, 0),
    sqrtO := fun x => x, powO := fun _ _ => 9 / 8, junk := 0 }

/-- `NN = 1` with the default tolerances of the solver headers. -/
def cfg0 : Cfg := { n := 1, atol := 1e-10, rtol := 1e-6 }

/-- The state of `integrate(0, 1.4e-6, pr, [1])` before the first loop iteration. -/
def st0 : St := initState os0 cfg0 0 [1]

/-- A throwaway state for total projections out of `IterRes` / `RunRes`. -/
def dummySt : St :=
  { t := 0, H := 0, Hold := 0, Hacc := 0, ErrOld := 0, NewtonRate := 0,
    Reject := false, FirstStep := false, SkipJac := false, SkipLU := false,
    y := [], y0 := [], sc := [], F0 := [], A := [], E1 := [], ip1 := [],
    E2 := [], ip2 := [], Z1 := [], Z2 := [], Z3 := [], CONT := [],
    Nconsecutive := 0, Nsteps := 0, Hlu := 0, Alu := [] }

def dummyInfo : AccInfo := { hUsed := 0, theta := 0, hq := 0, endp := false, nIter := 0 }

/-- Project the fallen-through state out of an iteration result. -/
def stOfIter (d : St) : IterRes → St
  | .next st _ => st
  | _ => d

/-- Project the accept observer data out of an iteration result. -/
def accOfIter (d : AccInfo) : IterRes → AccInfo
  | .next _ (.acc inf) => inf
  | _ => d

/-- Project the in-flight state out of a bounded run. -/
def stOfRun (d : St) : RunRes → St
  | .running st => st
  | .finished st => st
  | _ => d

end Radau2a

namespace Radau2a
/-- Backends that make every Newton increment the same nonzero vector: the
real back-substitution always returns `[5]` and the complex one `[(0, 0)]`,
so `Theta = 1` from the second Newton iteration on. -/
def os1 : Ors := { os0 with
  dgetrs := fun _ _ _ => ([5], 0), zgetrs := fun _ _ _ => ([(0, 0)], 0) }

/-- The initial state of `integrate(0, t_end, pr, [1])` under `os1`. -/
def stT : St := initState os1 cfg0 0 [1]

/-- A state one step short of the `Nsteps >= Max_no_steps` abort. -/
def stBig : St := { st0 with SkipLU := true, t := 1, H := 1, Nsteps := 199999 }

/-- A state whose step size triggers `0.1*|H| <= |t|*Roundoff`. -/
def stU : St := { st0 with SkipLU := true, t := 1, H := 1e-20 }

/-- A backend whose real LU factorization always fails (`info = 1`),
modelling a singular iteration matrix. -/
def os2 : Ors := { os0 with dgetrf := fun m => (m, [], 1) }

/-- A state that has already seen 4 consecutive LU failures. -/
def stL : St := { st0 with y := [7], Nconsecutive := 4 }

/-- A backend identical to `os0` except that the stack slot past `sums[]`
holds `1` instead of `0`. -/
def osJ1 : Ors := { os0 with junk := 1 }

/-- Project the NaN-marked return vector out of an iteration result. -/
def nanOfIter (d : List (Option ℚ)) : IterRes → List (Option ℚ)
  | .retNaN yo _ => yo
  | _ => d

/-- Project the step-reduction factor of a Newton retry out of an iteration result. -/
def facOf (d : ℚ) : IterRes → ℚ
  | .next _ (.newtonRetry _ f) => f
  | _ => d

/-- The first iteration of `integrate(0, 1.4e-6, 0, [1])` under `os0`. -/
def step1 : IterRes := loopIter os0 cfg0 0 1.4e-6 st0

/-- The state committed by `step1` (an accepted step). -/
def stA : St := stOfIter dummySt step1

/-- The accept observer data of `step1`. -/
def infA : AccInfo := accOfIter dummyInfo step1

/-- One Newton-increment computation under `os1` on trivial data: the
returned increment is a fixed positive rational. -/
def calc1 : V × V × V × ℚ :=
  (newtonIncrCalc os1 cfg0 0 0 1 [1] [1] [] [] [] [] [0] [0] [0]).getD ([], [], [], 0)

/-- The state after two accepted steps of `integrate(0, 1.4e-6, 0, [1])`
under `os0`: the first accept sets `SkipLU`, the second accept hits the
end-of-interval contraction `H = t_end - t`, which changes `H` while
retaining `SkipLU` and the factorization taken at the old step size. -/
def st2 : St := stOfRun dummySt (runLoop os0 cfg0 0 1.4e-6 2 st0)

/-! ## Definitions written from the spec, for comparison -/

/-- Modelled from the spec: `sum_i (sc[i]*v[i])^2`, the weighted sum of
squares that the spec says `RK_ErrorNorm` averages. -/
def specWeightedSumSq (cfg : Cfg) (sc v : V) : ℚ :=
  ((List.range cfg.n).map (fun i => (vnth sc i * vnth v i) ^ 2)).sum

/-- Modelled from the spec: `max(1e-10, sqrt(mean_i (sc[i]*v[i])^2))`. -/
def specErrNorm (os : Ors) (cfg : Cfg) (sc v : V) : ℚ :=
  max 1e-10 (os.sqrtO (specWeightedSumSq cfg sc v / (cfg.n : ℚ)))

/-- Modelled from the spec: a stage prediction evaluated from one abscissa
pair, `CONT[i] + a*(CONT[N+i] + b*CONT[2N+i])`; the spec claims `a = b = x_i`
for all three stages. -/
def specInterpStage (cfg : Cfg) (a b : ℚ) (CONT : V) : V :=
  vmk cfg.n (fun i =>
    vnth CONT i + a * (vnth CONT (cfg.n + i) + b * vnth CONT (cfg.n + cfg.n + i)))

/-! # Helper lemmas -/

theorem vnth_vmk (n : ℕ) (f : ℕ → ℚ) (i : ℕ) (h : i < n) : vnth (vmk n f) i = f i := by
  simp [vnth, vmk, List.getD_eq_getElem?_getD, List.getElem?_range, h]

/-- The LU phase of one loop iteration leaves the step bookkeeping fields of
the state unchanged when it falls through to the Newton phase. -/
theorem luPhase_frame (os : Ors) (cfg : Cfg) (pr : ℚ) (st : St) (F0 : V) (st1 : St)
    (h : luPhase os cfg pr st F0 = .inl st1) :
    st1.t = st.t ∧ st1.H = st.H ∧ st1.Hold = st.Hold ∧ st1.Hacc = st.Hacc ∧
    st1.ErrOld = st.ErrOld ∧ st1.NewtonRate = st.NewtonRate ∧
    st1.Reject = st.Reject ∧ st1.FirstStep = st.FirstStep ∧
    st1.SkipLU = st.SkipLU ∧
    st1.y = st.y ∧ st1.y0 = st.y0 ∧ st1.sc = st.sc ∧
    st1.Z1 = st.Z1 ∧ st1.Z2 = st.Z2 ∧ st1.Z3 = st.Z3 ∧ st1.CONT = st.CONT ∧
    st1.Nsteps = st.Nsteps := by
  simp only [luPhase] at h
  repeat' split at h
  all_goals first
    | (simp only [Sum.inl.injEq] at h
       subst h
       exact ⟨rfl, rfl, rfl, rfl, rfl, rfl, rfl, rfl, rfl, rfl, rfl, rfl, rfl,
         rfl, rfl, rfl, rfl⟩)
    | simp at h

/-- When the step enters with `SkipLU = true`, the LU phase touches nothing
but `F0`: the factorization, the Jacobian and the observers are retained. -/
theorem luPhase_skip (os : Ors) (cfg : Cfg) (pr : ℚ) (st : St) (F0 : V) (st1 : St)
    (hsk : st.SkipLU = true) (h : luPhase os cfg pr st F0 = .inl st1) :
    st1.A = st.A ∧ st1.Alu = st.Alu ∧ st1.Hlu = st.Hlu ∧
    st1.E1 = st.E1 ∧ st1.ip1 = st.ip1 ∧ st1.E2 = st.E2 ∧ st1.ip2 = st.ip2 := by
  simp only [luPhase] at h
  repeat' split at h
  all_goals first
    | (simp only [Sum.inl.injEq] at h
       subst h
       exact ⟨rfl, rfl, rfl, rfl, rfl, rfl, rfl⟩)
    | simp_all

/-- When the step enters with `SkipLU = false` and falls through, a fresh
factorization was just computed: the observers record the current step size
and the current Jacobian. -/
theorem luPhase_fresh (os : Ors) (cfg : Cfg) (pr : ℚ) (st : St) (F0 : V) (st1 : St)
    (hsk : st.SkipLU = false) (h : luPhase os cfg pr st F0 = .inl st1) :
    st1.Hlu = st1.H ∧ st1.Alu = st1.A := by
  simp only [luPhase] at h
  repeat' split at h
  all_goals first
    | (simp only [Sum.inl.injEq] at h
       subst h
       exact ⟨rfl, rfl⟩)
    | simp_all

/-- The LU phase bails out only to the 5-failures NaN return or to a
`luRetry` fall-through whose state has `SkipLU = false` and `Reject = true`
and is otherwise `st` with `H` halved (plus bookkeeping). -/
theorem luPhase_inr (os : Ors) (cfg : Cfg) (pr : ℚ) (st : St) (F0 : V) (r : IterRes)
    (h : luPhase os cfg pr st F0 = .inr r) :
    r = .retNaN (writeNaN0 st.y) .luF ∨
    (∃ st2, r = .next st2 .luRetry ∧ st2.SkipLU = false ∧ st2.Reject = true ∧
      st2.H = st.H * 0.5 ∧ st2.y = st.y) := by
  simp only [luPhase] at h
  repeat' split at h
  all_goals first
    | (simp only [Sum.inr.injEq] at h
       subst h
       exact Or.inl rfl)
    | (simp only [Sum.inr.injEq] at h
       subst h
       exact Or.inr ⟨_, rfl, rfl, rfl, rfl, rfl⟩)
    | simp at h


/-- Inversion of the accept branch of `postAccept`: what an accepted step
commits.  The committed time is `t + H`, the committed state is `y + Z3`
componentwise, the scale vector is rebuilt from the old and the new state,
`y0` becomes a copy of the new `y`, the Jacobian, both LU observers and the
factorizations are retained, and the `SkipLU` decision is exactly
`Theta <= ThetaMin && Qmin <= Hratio && Hratio <= Qmax` away from the
end-of-interval contraction, which instead retains the incoming `SkipLU`. -/
theorem postAccept_acc (os : Ors) (cfg : Cfg) (pr tEnd : ℚ) (st1 : St) (Nst : ℕ)
    (rate th : ℚ) (nI : ℕ) (Z1 Z2 Z3 : V) (st' : St) (inf : AccInfo)
    (h : postAccept os cfg pr tEnd st1 Nst rate th nI Z1 Z2 Z3 = .next st' (.acc inf)) :
    st'.t = st1.t + st1.H ∧ inf.hUsed = st1.H ∧ st'.Hold = st1.H ∧
    st'.y = vmk cfg.n (fun i => vnth st1.y i + vnth Z3 i) ∧ st'.Z3 = Z3 ∧
    st'.sc = scale cfg st'.y st1.y0 ∧ st'.y0 = st'.y ∧
    inf.theta = th ∧ st'.A = st1.A ∧ st'.Alu = st1.Alu ∧ st'.Hlu = st1.Hlu ∧
    st'.E1 = st1.E1 ∧ st'.Reject = false ∧ st'.FirstStep = false ∧
    (inf.endp = true → st'.SkipLU = st1.SkipLU ∧ st'.H = tEnd - st'.t) ∧
    (inf.endp = false →
      st'.SkipLU = (decide (th ≤ ThetaMin) && decide (Qmin ≤ inf.hq) && decide (inf.hq ≤ Qmax)) ∧
      (st'.SkipLU = true → st'.H = st1.H)) := by
  simp only [postAccept] at h
  repeat' split at h
  all_goals try (obtain ⟨hst, hinf⟩ := h; subst hst; subst hinf)
  all_goals try (injection h with hst ho; injection ho with hinf; subst hst; subst hinf)
  all_goals try (simp at h)
  all_goals refine ⟨rfl, rfl, rfl, rfl, rfl, rfl, rfl, rfl, rfl, rfl, rfl, rfl, rfl, rfl, ?_, ?_⟩
  all_goals first
    | (intro _
       exact ⟨rfl, rfl⟩)
    | (intro _
       exact ⟨rfl, fun hskip => if_pos hskip⟩)
    | (intro hf
       simp at hf)

/-- Inversion of the reject branch of `postAccept`: a rejected step clears
`SkipLU`, sets `Reject`, and requests a Jacobian skip. -/
theorem postAccept_rej (os : Ors) (cfg : Cfg) (pr tEnd : ℚ) (st1 : St) (Nst : ℕ)
    (rate th : ℚ) (nI : ℕ) (Z1 Z2 Z3 : V) (st' : St)
    (h : postAccept os cfg pr tEnd st1 Nst rate th nI Z1 Z2 Z3 = .next st' .rej) :
    st'.SkipLU = false ∧ st'.Reject = true ∧ st'.SkipJac = true := by
  simp only [postAccept] at h
  repeat' split at h
  all_goals first
    | (obtain ⟨hst, hout⟩ := h
       subst hst
       exact ⟨rfl, rfl, rfl⟩)
    | (injection h with hst ho
       subst hst
       exact ⟨rfl, rfl, rfl⟩)
    | simp at h


/-- The Newton loop never reaches a `Theta` abort with a `Fac` other than the
one it was entered with (the only write to `Fac` inside the loop is followed
immediately by the predicted-error abort). -/
theorem newtonLoop_fac (os : Ors) (cfg : Cfg) (t pr H : ℚ) (y sc : V) (E1 : Mat)
    (ip1 : List ℤ) (E2 : CMat) (ip2 : List ℤ) :
    ∀ (fuel : ℕ) (Z1 Z2 Z3 : V) (incrOld Fac rate th fac rate' : ℚ) (iter k : ℕ),
      newtonLoop os cfg t pr H y sc E1 ip1 E2 ip2 fuel Z1 Z2 Z3 incrOld Fac rate iter =
        .abortTheta th fac rate' k → fac = Fac := by
  intro fuel
  induction fuel with
  | zero =>
    intro Z1 Z2 Z3 incrOld Fac rate th fac rate' iter k h
    simp [newtonLoop] at h
  | succ n ih =>
    intro Z1 Z2 Z3 incrOld Fac rate th fac rate' iter k h
    rw [newtonLoop] at h
    repeat' split at h
    all_goals first
      | (injection h
         subst_vars
         rfl)
      | (obtain ⟨h1, h2, h3, h4⟩ := h
         exact h2.symm)
      | exact ih _ _ _ _ _ _ _ _ _ _ _ h
      | simp at h

/-- `postAccept` always falls through, to an accept or to a reject. -/
theorem postAccept_out (os : Ors) (cfg : Cfg) (pr tEnd : ℚ) (st1 : St) (Nst : ℕ)
    (rate th : ℚ) (nI : ℕ) (Z1 Z2 Z3 : V) (st' : St) (o : Outc)
    (h : postAccept os cfg pr tEnd st1 Nst rate th nI Z1 Z2 Z3 = .next st' o) :
    o = .rej ∨ ∃ inf, o = .acc inf := by
  simp only [postAccept] at h
  repeat' split at h
  all_goals try (obtain ⟨hst, hout⟩ := h; subst hout)
  all_goals try (injection h with hst hout; subst hout)
  all_goals first
    | exact Or.inl rfl
    | exact Or.inr ⟨_, rfl⟩
    | simp at h

/-- `postAccept` never produces the early NaN return. -/
theorem postAccept_no_retNaN (os : Ors) (cfg : Cfg) (pr tEnd : ℚ) (st1 : St) (Nst : ℕ)
    (rate th : ℚ) (nI : ℕ) (Z1 Z2 Z3 : V) (yout : List (Option ℚ)) (r : FailR) :
    postAccept os cfg pr tEnd st1 Nst rate th nI Z1 Z2 Z3 ≠ .retNaN yout r := by
  intro h
  simp only [postAccept] at h
  repeat' split at h
  all_goals simp at h

/-- The LU phase never bails out with an accepted-step outcome. -/
theorem luPhase_no_acc (os : Ors) (cfg : Cfg) (pr : ℚ) (st : St) (F0 : V) (st' : St)
    (inf : AccInfo) : luPhase os cfg pr st F0 ≠ .inr (.next st' (.acc inf)) := by
  intro h
  rcases luPhase_inr os cfg pr st F0 _ h with h1 | ⟨st2, h2, _, _, _, _⟩
  · simp at h1
  · simp at h2


/-- Inversion of an accepted iteration: it passed the LU phase, its Newton
loop converged, and the accept went through `postAccept` with the converged
data and the incremented step counter. -/
theorem loopIter_acc (os : Ors) (cfg : Cfg) (pr tEnd : ℚ) (st st' : St) (inf : AccInfo)
    (h : loopIter os cfg pr tEnd st = .next st' (.acc inf)) :
    ∃ (st1 : St) (rate th incr : ℚ) (nI : ℕ) (Z1 Z2 Z3 : V),
      luPhase os cfg pr st (if st.Reject then st.F0 else os.dydt st.t pr st.y) = .inl st1 ∧
      newtonLoop os cfg st1.t pr st1.H st1.y st1.sc st1.E1 st1.ip1 st1.E2 st1.ip2
        NewtonMaxit (predZ cfg st1).1 (predZ cfg st1).2.1 (predZ cfg st1).2.2 0 0.5
        (os.powO (max st1.NewtonRate EPS) 0.8) 0 = .conv Z1 Z2 Z3 rate incr th nI ∧
      postAccept os cfg pr tEnd st1 (st1.Nsteps + 1) rate th nI Z1 Z2 Z3 =
        .next st' (.acc inf) := by
  simp only [loopIter] at h
  split at h
  next r heq =>
    rcases luPhase_inr _ _ _ _ _ _ heq with h1 | ⟨st2, h2, _, _, _, _⟩
    · rw [h1] at h
      simp at h
    · rw [h2] at h
      simp at h
  next st1 heq =>
    repeat' split at h
    all_goals try (exact absurd h (by simp))
    next Z1 Z2 Z3 rate incr th nI hnewt =>
      exact ⟨st1, rate, th, incr, nI, Z1, Z2, Z3, heq, hnewt, h⟩


/-- Inversion of the early NaN return: it is taken only on the fifth
consecutive LU failure or on Newton non-convergence at the last allowed
iteration, and it hands back the entry state vector with its first component
overwritten by NaN and all others untouched. -/
theorem loopIter_retNaN (os : Ors) (cfg : Cfg) (pr tEnd : ℚ) (st : St)
    (yout : List (Option ℚ)) (r : FailR)
    (h : loopIter os cfg pr tEnd st = .retNaN yout r) :
    yout = writeNaN0 st.y := by
  simp only [loopIter] at h
  split at h
  next rr heq =>
    rcases luPhase_inr _ _ _ _ _ _ heq with h1 | ⟨st2, h2, _, _, _, _⟩
    · rw [h1] at h
      injection h with h3 h4
      exact h3.symm
    · rw [h2] at h
      simp at h
  next st1 heq =>
    have hy := (luPhase_frame _ _ _ _ _ _ heq).2.2.2.2.2.2.2.2.2.1
    repeat' split at h
    all_goals first
      | (injection h with h3 h4
         rw [← h3, hy])
      | exact absurd h (postAccept_no_retNaN _ _ _ _ _ _ _ _ _ _ _ _ _ _)
      | simp at h

/-- Every fall-through outcome other than an accept clears `SkipLU` and sets
`Reject`. -/
theorem loopIter_nonacc (os : Ors) (cfg : Cfg) (pr tEnd : ℚ) (st st' : St) (o : Outc)
    (h : loopIter os cfg pr tEnd st = .next st' o) (hna : ∀ inf, o ≠ .acc inf) :
    st'.SkipLU = false ∧ st'.Reject = true := by
  simp only [loopIter] at h
  split at h
  next rr heq =>
    rcases luPhase_inr _ _ _ _ _ _ heq with h1 | ⟨st2, h2, hsk, hrj, _, _⟩
    · rw [h1] at h
      simp at h
    · rw [h2] at h
      injection h with h3 h4
      rw [← h3]
      exact ⟨hsk, hrj⟩
  next st1 heq =>
    repeat' split at h
    all_goals first
      | (injection h with h3 h4
         rw [← h3]
         exact ⟨rfl, rfl⟩)
      | (have hro := postAccept_out _ _ _ _ _ _ _ _ _ _ _ _ _ _ h
         rcases hro with ho | ⟨inf, ho⟩
         · subst ho
           exact ⟨(postAccept_rej _ _ _ _ _ _ _ _ _ _ _ _ _ h).1,
                  (postAccept_rej _ _ _ _ _ _ _ _ _ _ _ _ _ h).2.1⟩
         · exact absurd ho (hna inf))
      | simp at h

/-- Inversion of a Newton retry: the state falls through with `H` scaled by
the returned `Fac`, and a `Theta`-abort retry always uses `Fac = 0.5`. -/
theorem loopIter_newtonRetry (os : Ors) (cfg : Cfg) (pr tEnd : ℚ) (st st' : St)
    (b : Bool) (fac : ℚ)
    (h : loopIter os cfg pr tEnd st = .next st' (.newtonRetry b fac)) :
    st'.H = fac * st.H ∧ st'.Reject = true ∧ st'.SkipLU = false ∧ st'.SkipJac = true ∧
    (b = true → fac = 0.5) := by
  simp only [loopIter] at h
  split at h
  next rr heq =>
    rcases luPhase_inr _ _ _ _ _ _ heq with h1 | ⟨st2, h2, _, _, _, _⟩
    · rw [h1] at h
      simp at h
    · rw [h2] at h
      simp at h
  next st1 heq =>
    have hH := (luPhase_frame _ _ _ _ _ _ heq).2.1
    repeat' split at h
    all_goals first
      | (rename_i hnewt
         injection h with h3 h4
         injection h4 with h5 h6
         rw [← h3, ← h6]
         exact ⟨by rw [hH], rfl, rfl, rfl,
           fun _ =>
             newtonLoop_fac _ _ _ _ _ _ _ _ _ _ _ _ _ _ _ _ _ _ _ _ _ _ _ hnewt⟩)
      | (injection h with h3 h4
         injection h4 with h5 h6
         rw [← h3, ← h6]
         exact ⟨by rw [hH], rfl, rfl, rfl, fun hb => nomatch h5.trans hb⟩)
      | (have hro := postAccept_out _ _ _ _ _ _ _ _ _ _ _ _ _ _ h
         rcases hro with ho | ⟨inf, ho⟩ <;> simp at ho)
      | simp at h


/-- The Newton loop executes its body at most `NewtonMaxit` times. -/
theorem newtonLoop_iters (os : Ors) (cfg : Cfg) (t pr H : ℚ) (y sc : V) (E1 : Mat)
    (ip1 : List ℤ) (E2 : CMat) (ip2 : List ℤ) :
    ∀ (fuel : ℕ) (Z1 Z2 Z3 : V) (incrOld Fac rate : ℚ) (iter : ℕ),
      iter + fuel ≤ NewtonMaxit →
      itersOf (newtonLoop os cfg t pr H y sc E1 ip1 E2 ip2 fuel Z1 Z2 Z3 incrOld Fac rate iter)
        ≤ NewtonMaxit := by
  intro fuel
  induction fuel with
  | zero =>
    intro Z1 Z2 Z3 incrOld Fac rate iter hle
    simp [newtonLoop, itersOf]
  | succ n ih =>
    intro Z1 Z2 Z3 incrOld Fac rate iter hle
    rw [newtonLoop]
    split
    next => simp [itersOf]
    next DZ1 DZ2 DZ3 incr heq =>
      split
      next => simp only [itersOf]; omega
      next => simp only [itersOf]; omega
      next theta rate' hgate =>
        split
        next => simp only [itersOf]; omega
        next =>
          split
          next => simp [itersOf]
          next => exact ih _ _ _ _ _ _ _ (by omega)

/-- Convergence is declared only when `NewtonRate * NewtonIncrement <= NewtonTol`
holds for the final iteration. -/
theorem newtonLoop_conv_le (os : Ors) (cfg : Cfg) (t pr H : ℚ) (y sc : V) (E1 : Mat)
    (ip1 : List ℤ) (E2 : CMat) (ip2 : List ℤ) :
    ∀ (fuel : ℕ) (Z1 Z2 Z3 : V) (incrOld Fac rate : ℚ) (iter : ℕ)
      (Z1' Z2' Z3' : V) (rate' incr th : ℚ) (k : ℕ),
      newtonLoop os cfg t pr H y sc E1 ip1 E2 ip2 fuel Z1 Z2 Z3 incrOld Fac rate iter =
        .conv Z1' Z2' Z3' rate' incr th k → rate' * incr ≤ NewtonTol := by
  intro fuel
  induction fuel with
  | zero =>
    intro Z1 Z2 Z3 incrOld Fac rate iter Z1' Z2' Z3' rate' incr th k h
    simp [newtonLoop] at h
  | succ n ih =>
    intro Z1 Z2 Z3 incrOld Fac rate iter Z1' Z2' Z3' rate' incr th k h
    rw [newtonLoop] at h
    repeat' split at h
    all_goals first
      | (injection h
         subst_vars
         assumption)
      | exact ih _ _ _ _ _ _ _ _ _ _ _ _ _ _ h
      | simp at h

/-- As soon as an iteration passes the convergence gate with an updated rate
satisfying the test, the loop stops there, declared converged, with the stage
increments updated once more. -/
theorem newtonLoop_convAt (os : Ors) (cfg : Cfg) (t pr H : ℚ) (y sc : V) (E1 : Mat)
    (ip1 : List ℤ) (E2 : CMat) (ip2 : List ℤ) (fuel : ℕ) (Z1 Z2 Z3 : V)
    (incrOld Fac rate : ℚ) (iter : ℕ) (DZ1 DZ2 DZ3 : V) (incr theta rate' : ℚ)
    (hc : newtonIncrCalc os cfg t pr H y sc E1 ip1 E2 ip2 Z1 Z2 Z3 =
      some (DZ1, DZ2, DZ3, incr))
    (hg : newtonGate os incr incrOld rate iter = .go theta rate')
    (hd : rate' * incr ≤ NewtonTol) :
    newtonLoop os cfg t pr H y sc E1 ip1 E2 ip2 (fuel + 1) Z1 Z2 Z3 incrOld Fac rate iter =
      .conv (vmk cfg.n fun i => vnth Z1 i - vnth DZ1 i)
        (vmk cfg.n fun i => vnth Z2 i - vnth DZ2 i)
        (vmk cfg.n fun i => vnth Z3 i - vnth DZ3 i) rate' incr theta iter := by
  rw [newtonLoop, hc]
  dsimp only
  rw [hg]
  dsimp only
  rw [if_pos hd]

/-- Whenever `Theta = NewtonIncrement / NewtonIncrementOld` fails `Theta < 0.99`
at an iteration of index at least 1, the Newton loop aborts at once with the
entry `Fac` and rate. -/
theorem newtonLoop_thetaAbort (os : Ors) (cfg : Cfg) (t pr H : ℚ) (y sc : V) (E1 : Mat)
    (ip1 : List ℤ) (E2 : CMat) (ip2 : List ℤ) (fuel : ℕ) (Z1 Z2 Z3 : V)
    (incrOld Fac rate : ℚ) (iter : ℕ) (DZ1 DZ2 DZ3 : V) (incr : ℚ)
    (hc : newtonIncrCalc os cfg t pr H y sc E1 ip1 E2 ip2 Z1 Z2 Z3 =
      some (DZ1, DZ2, DZ3, incr))
    (hit : 0 < iter) (hth : ¬incr / incrOld < 0.99) :
    newtonLoop os cfg t pr H y sc E1 ip1 E2 ip2 (fuel + 1) Z1 Z2 Z3 incrOld Fac rate iter =
      .abortTheta (incr / incrOld) Fac rate iter := by
  rw [newtonLoop, hc]
  simp [newtonGate, hit, hth]


/-- Sum of a length-8 mapped range, written out. -/
theorem sum8 (g : ℕ → ℚ) :
    ((List.range 8).map g).sum = g 0 + g 1 + g 2 + g 3 + g 4 + g 5 + g 6 + g 7 := by
  show g 0 + (g 1 + (g 2 + (g 3 + (g 4 + (g 5 + (g 6 + (g 7 + 0))))))) = _
  ring

/-- Peeling the last 8 summands off a range sum. -/
theorem range_add8_sum (a : ℕ → ℚ) (m : ℕ) :
    ((List.range (m + 8)).map a).sum =
      ((List.range m).map a).sum +
        (a m + a (m + 1) + a (m + 2) + a (m + 3) + a (m + 4) + a (m + 5)
          + a (m + 6) + a (m + 7)) := by
  simp only [List.range_succ, List.map_append, List.sum_append, List.map_cons,
    List.map_nil, List.sum_cons, List.sum_nil]
  ring

/-- Unroll correctness: the eight partial sums of the mod-part loop and the
strided loop add up to the plain sum over all `s + 8*B` indices. -/
theorem unrollSum (a : ℕ → ℚ) (s : ℕ) (hs : s < UNROLL) :
    ∀ B : ℕ,
      ((List.range UNROLL).map (fun j =>
        (if j < s then a j else 0)
          + ((List.range B).map (fun b => a (s + UNROLL * b + j))).sum)).sum
        = ((List.range (s + UNROLL * B)).map a).sum := by
  intro B
  induction B with
  | zero =>
    simp only [List.range_zero, List.map_nil, List.sum_nil, Nat.mul_zero, Nat.add_zero]
    rw [show UNROLL = 8 from rfl] at hs ⊢
    rw [sum8]
    interval_cases s <;> simp [List.range_succ] <;> ring
  | succ B ih =>
    rw [show s + UNROLL * (B + 1) = s + UNROLL * B + 8 from by
      rw [show UNROLL = 8 from rfl]; ring]
    rw [range_add8_sum, ← ih]
    simp only [List.range_succ, List.map_append, List.sum_append, List.map_cons,
      List.map_nil, List.sum_cons, List.sum_nil]
    rw [show UNROLL = 8 from rfl] at hs ⊢
    rw [sum8, sum8]
    simp only [Nat.add_zero]
    ring

/-- The final accumulation loop of `RK_ErrorNorm` over a length-8 list sums
the list and adds the out-of-bounds slot. -/
theorem foldl_sums (l : List ℚ) (d : ℚ) (hl : l.length = 8) :
    sumLoopIdx.foldl (fun s i => s + l.getD i d) 0 = l.sum + d := by
  rcases l with _ | ⟨a0, _ | ⟨a1, _ | ⟨a2, _ | ⟨a3, _ | ⟨a4, _ | ⟨a5, _ | ⟨a6, _ | ⟨a7, _ | ⟨a8, t⟩⟩⟩⟩⟩⟩⟩⟩⟩ <;>
    simp at hl
  show 0 + a0 + a1 + a2 + a3 + a4 + a5 + a6 + a7 + d = _
  simp only [List.sum_cons, List.sum_nil]
  ring

/-- Exact characterization of the accumulated sum of `RK_ErrorNorm`: the
weighted sum of squares the spec describes, plus the unspecified value read
out of bounds at `sums[UNROLL]`. -/
theorem errNormSum_eq (os : Ors) (cfg : Cfg) (sc v : V) :
    errNormSum os cfg sc v = specWeightedSumSq cfg sc v + os.junk := by
  have hlen : (errSums cfg sc v).length = 8 := by
    simp [errSums, UNROLL]
  rw [errNormSum, foldl_sums _ _ hlen]
  congr 1
  show ((List.range UNROLL).map (fun j =>
    (if j < cfg.n % UNROLL then wsq sc v j else 0)
      + ((List.range ((cfg.n - cfg.n % UNROLL) / UNROLL)).map
          (fun b => wsq sc v (cfg.n % UNROLL + UNROLL * b + j))).sum)).sum = _
  rw [unrollSum (wsq sc v) (cfg.n % UNROLL) (Nat.mod_lt _ (by decide))
    ((cfg.n - cfg.n % UNROLL) / UNROLL)]
  rw [show cfg.n % UNROLL + UNROLL * ((cfg.n - cfg.n % UNROLL) / UNROLL) = cfg.n from by
    rw [show UNROLL = 8 from rfl]; omega]
  rw [specWeightedSumSq]
  congr 1
  refine List.map_congr_left ?_
  intro i _
  rw [wsq]
  ring

/-! # Claim theorems -/

/-- C5: `RK_ErrorNorm` is claimed to return exactly
`max(1e-10, sqrt(mean_i (sc[i]*v[i])^2))`.  For every scale vector and every
vector it actually returns `max(sqrt((S + g)/NN), 1e-10)` where `S` is the
claimed weighted sum of squares and `g` is whatever sits one slot past the
8-element partial-sum array `sums[UNROLL]`, which the final accumulation loop
`for (int i = 0; i <= UNROLL; ++i)` reads out of bounds.  With that slot at 0
the claimed formula is returned exactly; with it at 1 the returned norm
differs from the claimed one.  The claim describes the evident intent; the
out-of-bounds read is a slip in the code. -/
theorem C5_error_norm_oob :
    (∀ (os : Ors) (cfg : Cfg) (sc v : V),
      errNormSum os cfg sc v = specWeightedSumSq cfg sc v + os.junk ∧
      RK_ErrorNorm os cfg sc v =
        max (os.sqrtO ((specWeightedSumSq cfg sc v + os.junk) / (cfg.n : ℚ))) 1e-10) ∧
    RK_ErrorNorm os0 cfg0 [1] [1] = specErrNorm os0 cfg0 [1] [1] ∧
    RK_ErrorNorm osJ1 cfg0 [1] [1] ≠ specErrNorm osJ1 cfg0 [1] [1] := by
  refine ⟨fun os cfg sc v => ⟨errNormSum_eq os cfg sc v, ?_⟩, by decide, by decide⟩
  rw [RK_ErrorNorm, errNormSum_eq]

/-- C9: the claim that every access of `RK_ErrorNorm` is in bounds and that
the final loop reads only `sums[0..UNROLL-1]` is false of the code: the loop
`for (int i = 0; i <= UNROLL; ++i)` visits index `UNROLL = 8` as well, which
is not an index of the 8-element array `sums[UNROLL]`, and the value read
there changes the returned sum. -/
theorem C9_sums_oob_read :
    UNROLL ∈ sumLoopIdx ∧ (errSums cfg0 [1] [1]).length = UNROLL ∧
    (∀ i ∈ sumLoopIdx, i < (errSums cfg0 [1] [1]).length → i < UNROLL) ∧
    errNormSum osJ1 cfg0 [1] [1] ≠ errNormSum os0 cfg0 [1] [1] := by
  decide

/-- C6 counterexample: the claim that all three warm-start predictions are
evaluated symmetrically, `Z_i = CONT + x_i*(CONT' + x_i*CONT'')`, fails for
the third stage: at `H = Hold = 1` and `CONT = [0, 1, 0]` the code computes
`Z3 = x2` while the claimed symmetric formula gives `x3`. -/
theorem C6_interpolate_counterexample :
    (RK_Interpolate cfg0 1 1 [0, 1, 0]).2.2 ≠
      specInterpStage cfg0 (1.0 + rkC.getD 2 0 * (1 / 1)) (1.0 + rkC.getD 2 0 * (1 / 1))
        [0, 1, 0] := by
  decide

/-- C6 (amended): `Z1` and `Z2` are evaluated symmetrically from their own
abscissae `x1` and `x2`, but the third line of `RK_Interpolate` uses `x2` as
the outer factor and `x3` as the inner one:
`Z3[i] = CONT[i] + x2*(CONT[N+i] + x3*CONT[2N+i])`. -/
theorem C6_interpolate_mixed (cfg : Cfg) (H Hold : ℚ) (CONT : V) :
    (RK_Interpolate cfg H Hold CONT).1 =
      specInterpStage cfg (1.0 + rkC.getD 0 0 * (H / Hold)) (1.0 + rkC.getD 0 0 * (H / Hold)) CONT ∧
    (RK_Interpolate cfg H Hold CONT).2.1 =
      specInterpStage cfg (1.0 + rkC.getD 1 0 * (H / Hold)) (1.0 + rkC.getD 1 0 * (H / Hold)) CONT ∧
    (RK_Interpolate cfg H Hold CONT).2.2 =
      specInterpStage cfg (1.0 + rkC.getD 1 0 * (H / Hold)) (1.0 + rkC.getD 2 0 * (H / Hold)) CONT :=
  ⟨rfl, rfl, rfl⟩

/-- C8 counterexample: the claim that the integration loop starts with `h`
equal to the configured option `h_init` fails: `integrate` hard-codes
`H = 5e-7` and never receives the options object, whose default `h_init`
is `1e-6`. -/
theorem C8_hinit_counterexample :
    (initState os0 cfg0 0 [1]).H = 5e-7 ∧ defaultSolverOptions.h_init = 1e-6 ∧
    (initState os0 cfg0 0 [1]).H ≠ defaultSolverOptions.h_init := by
  decide

/-- C8 (amended): the loop starts from `t = t_start` with the hard-coded
initial step size `h = 5e-7` (not the SolverOptions `h_init`), and with
`first_step = true`, `reject = false`, `skip_jac = false`, `skip_lu = false`. -/
theorem C8_init_state (os : Ors) (cfg : Cfg) (t0 : ℚ) (y : V) :
    (initState os cfg t0 y).t = t0 ∧ (initState os cfg t0 y).H = 5e-7 ∧
    (initState os cfg t0 y).FirstStep = true ∧ (initState os cfg t0 y).Reject = false ∧
    (initState os cfg t0 y).SkipJac = false ∧ (initState os cfg t0 y).SkipLU = false :=
  ⟨rfl, rfl, rfl, rfl, rfl, rfl⟩

/-- C2: the claim says every per-IVP fatal condition is surfaced as a
non-zero return code by value and never terminates the process; the intent is
documented in the source itself ("todo implement return codes").  The code
instead calls `exit(-1)` on `Nsteps >= Max_no_steps` and on the step-size
underflow `0.1*|H| <= |t|*Roundoff`, and on the fifth consecutive LU failure
returns void with `y[0]` set to NaN — no return code exists on any path. -/
theorem C2_fatal_paths :
    loopIter os0 cfg0 0 10 stBig = .exitProc .maxSteps ∧
    loopIter os0 cfg0 0 10 stU = .exitProc .hUnder ∧
    loopIter os2 cfg0 0 10 stL = .retNaN [none] .luF := by
  refine ⟨rfl, rfl, rfl⟩


/-- C1: after every accepted Radau step of `integrate`, the committed time is
`t_new = t_old + h_used` and the committed state is `y_new[i] = y_old[i] + Z3[i]`
componentwise, where `Z3` is the converged third-stage Newton increment
(retained in the fall-through state) and `h_used` is also recorded in `Hold`. -/
theorem C1_accept_commit (os : Ors) (cfg : Cfg) (pr tEnd : ℚ) (st st' : St)
    (inf : AccInfo) (h : loopIter os cfg pr tEnd st = .next st' (.acc inf)) :
    st'.t = st.t + inf.hUsed ∧ inf.hUsed = st'.Hold ∧
    (∀ i, i < cfg.n → vnth st'.y i = vnth st.y i + vnth st'.Z3 i) := by
  obtain ⟨st1, rate, th, incr, nI, Z1, Z2, Z3, hlu, hnewt, hpa⟩ :=
    loopIter_acc os cfg pr tEnd st st' inf h
  have hfr := luPhase_frame _ _ _ _ _ _ hlu
  obtain ⟨ht, hU, hHold, hy, hZ3, _, _, _, _, _, _, _, _, _, _, _⟩ :=
    postAccept_acc _ _ _ _ _ _ _ _ _ _ _ _ _ _ hpa
  refine ⟨?_, ?_, ?_⟩
  · rw [ht, hU, hfr.1, hfr.2.1]
  · rw [hU, hHold]
  · intro i hi
    rw [hy, vnth_vmk _ _ _ hi, hfr.2.2.2.2.2.2.2.2.2.1, hZ3]

/-- C1 witness: the first step of `integrate(0, 1.4e-6, 0, [1])` under the
trivial backends is accepted and commits `t = 0 + 5e-7` and `y = y + Z3`. -/
theorem C1_accept_commit_witness :
    stA.t = st0.t + infA.hUsed ∧ infA.hUsed = stA.Hold ∧
    vnth stA.y 0 = vnth st0.y 0 + vnth stA.Z3 0 := by
  have h := C1_accept_commit os0 cfg0 0 1.4e-6 st0 stA infA rfl
  exact ⟨h.1, h.2.1, h.2.2 0 (by decide)⟩

/-- C10: whenever `integrate` returns early on a per-IVP fatal failure (the
fifth consecutive LU factorization failure, or Newton still unconverged at
iteration `NewtonMaxit - 1`), it hands back the state vector with `y[0]`
overwritten by NaN (`logf(-1)`) and `y[1..N-1]` exactly at their last
accepted values — the only data surfaced by these void-return paths. -/
theorem C10_nan_signal (os : Ors) (cfg : Cfg) (pr tEnd : ℚ) (st : St)
    (yout : List (Option ℚ)) (r : FailR) (hne : st.y ≠ [])
    (h : loopIter os cfg pr tEnd st = .retNaN yout r) :
    yout = none :: (st.y.drop 1).map some := by
  rw [loopIter_retNaN os cfg pr tEnd st yout r h]
  cases hy : st.y with
  | nil => exact absurd hy hne
  | cons a rest => simp [writeNaN0]

/-- C10 witness: the 5th consecutive LU failure under the singular-Jacobian
backend returns `y = [NaN]` for the 1-component state `[7]`. -/
theorem C10_nan_signal_witness :
    nanOfIter [] (loopIter os2 cfg0 0 10 stL) = none :: (stL.y.drop 1).map some := by
  have h := C10_nan_signal os2 cfg0 0 10 stL (nanOfIter [] (loopIter os2 cfg0 0 10 stL))
    .luF (by decide) rfl
  exact h


/-- C7: at initialization the scale vector is
`sc[i] = 1 / (atol + |y0[i]| * rtol)`, and after every accepted step it is
rebuilt as `sc[i] = 1 / (atol + max(|y_prev[i]|, |y_new[i]|) * rtol)` from the
previously accepted state (`y0`, kept equal to `y` between steps) and the
newly accepted one; the copy `y0 = y` is re-established by the accept. -/
theorem C7_scale_rebuild :
    (∀ (os : Ors) (cfg : Cfg) (t0 : ℚ) (y : V) (i : ℕ), i < cfg.n →
      vnth (initState os cfg t0 y).sc i = 1 / (cfg.atol + |vnth y i| * cfg.rtol)) ∧
    (∀ (os : Ors) (cfg : Cfg) (pr tEnd : ℚ) (st st' : St) (inf : AccInfo),
      st.y0 = st.y → loopIter os cfg pr tEnd st = .next st' (.acc inf) →
      (∀ i, i < cfg.n →
        vnth st'.sc i = 1 / (cfg.atol + max |vnth st.y i| |vnth st'.y i| * cfg.rtol)) ∧
      st'.y0 = st'.y) := by
  constructor
  · intro os cfg t0 y i hi
    show vnth (scale_init cfg y) i = _
    rw [scale_init, vnth_vmk _ _ _ hi]
  · intro os cfg pr tEnd st st' inf hcopy h
    obtain ⟨st1, rate, th, incr, nI, Z1, Z2, Z3, hlu, hnewt, hpa⟩ :=
      loopIter_acc os cfg pr tEnd st st' inf h
    have hfr := luPhase_frame _ _ _ _ _ _ hlu
    obtain ⟨_, _, _, _, _, hsc, hy0, _, _, _, _, _, _, _, _, _⟩ :=
      postAccept_acc _ _ _ _ _ _ _ _ _ _ _ _ _ _ hpa
    refine ⟨?_, hy0⟩
    intro i hi
    rw [hsc, scale, vnth_vmk _ _ _ hi, hfr.2.2.2.2.2.2.2.2.2.2.1, hcopy, max_comm]

/-- C7 witness: after the first accepted step of the trivial trace the scale
entry satisfies the rebuilt formula and `y0` is a copy of the new `y`. -/
theorem C7_scale_rebuild_witness :
    vnth stA.sc 0 = 1 / (cfg0.atol + max |vnth st0.y 0| |vnth stA.y 0| * cfg0.rtol) ∧
    stA.y0 = stA.y ∧
    vnth (initState os0 cfg0 0 [1]).sc 0 = 1 / (cfg0.atol + |vnth [1] 0| * cfg0.rtol) := by
  have h2 := C7_scale_rebuild.2 os0 cfg0 0 1.4e-6 st0 stA infA rfl rfl
  exact ⟨h2.1 0 (by decide), h2.2, C7_scale_rebuild.1 os0 cfg0 0 [1] 0 (by decide)⟩


/-- C3: the Newton loop of `integrate` performs at most `NewtonMaxit = 8`
iterations; it is declared converged exactly when
`NewtonRate * NewtonIncrement <= NewtonTol = 0.03` (a converged run satisfies
the test, and as soon as an iteration's updated rate satisfies it the loop
stops converged there); and whenever `Theta >= 0.99` at an iteration of index
`k >= 1` the loop aborts at once and the step is retried with `H` reduced by
`Fac = 0.5`. -/
theorem C3_newton_control :
    (∀ (os : Ors) (cfg : Cfg) (t pr H : ℚ) (y sc : V) (E1 : Mat) (ip1 : List ℤ)
       (E2 : CMat) (ip2 : List ℤ) (fuel : ℕ) (Z1 Z2 Z3 : V) (incrOld Fac rate : ℚ)
       (iter : ℕ), iter + fuel ≤ NewtonMaxit →
       itersOf (newtonLoop os cfg t pr H y sc E1 ip1 E2 ip2 fuel Z1 Z2 Z3 incrOld Fac rate iter)
         ≤ NewtonMaxit) ∧
    (∀ (os : Ors) (cfg : Cfg) (t pr H : ℚ) (y sc : V) (E1 : Mat) (ip1 : List ℤ)
       (E2 : CMat) (ip2 : List ℤ) (fuel : ℕ) (Z1 Z2 Z3 : V) (incrOld Fac rate : ℚ)
       (iter : ℕ) (Z1' Z2' Z3' : V) (rate' incr th : ℚ) (k : ℕ),
       newtonLoop os cfg t pr H y sc E1 ip1 E2 ip2 fuel Z1 Z2 Z3 incrOld Fac rate iter =
         .conv Z1' Z2' Z3' rate' incr th k → rate' * incr ≤ NewtonTol) ∧
    (∀ (os : Ors) (cfg : Cfg) (t pr H : ℚ) (y sc : V) (E1 : Mat) (ip1 : List ℤ)
       (E2 : CMat) (ip2 : List ℤ) (fuel : ℕ) (Z1 Z2 Z3 : V) (incrOld Fac rate : ℚ)
       (iter : ℕ) (DZ1 DZ2 DZ3 : V) (incr theta rate' : ℚ),
       newtonIncrCalc os cfg t pr H y sc E1 ip1 E2 ip2 Z1 Z2 Z3 =
         some (DZ1, DZ2, DZ3, incr) →
       newtonGate os incr incrOld rate iter = .go theta rate' →
       rate' * incr ≤ NewtonTol →
       newtonLoop os cfg t pr H y sc E1 ip1 E2 ip2 (fuel + 1) Z1 Z2 Z3 incrOld Fac rate iter =
         .conv (vmk cfg.n fun i => vnth Z1 i - vnth DZ1 i)
           (vmk cfg.n fun i => vnth Z2 i - vnth DZ2 i)
           (vmk cfg.n fun i => vnth Z3 i - vnth DZ3 i) rate' incr theta iter) ∧
    (∀ (os : Ors) (cfg : Cfg) (t pr H : ℚ) (y sc : V) (E1 : Mat) (ip1 : List ℤ)
       (E2 : CMat) (ip2 : List ℤ) (fuel : ℕ) (Z1 Z2 Z3 : V) (incrOld Fac rate : ℚ)
       (iter : ℕ) (DZ1 DZ2 DZ3 : V) (incr : ℚ),
       newtonIncrCalc os cfg t pr H y sc E1 ip1 E2 ip2 Z1 Z2 Z3 =
         some (DZ1, DZ2, DZ3, incr) →
       0 < iter → ¬incr / incrOld < 0.99 →
       newtonLoop os cfg t pr H y sc E1 ip1 E2 ip2 (fuel + 1) Z1 Z2 Z3 incrOld Fac rate iter =
         .abortTheta (incr / incrOld) Fac rate iter) ∧
    (∀ (os : Ors) (cfg : Cfg) (pr tEnd : ℚ) (st st' : St) (fac : ℚ),
       loopIter os cfg pr tEnd st = .next st' (.newtonRetry true fac) →
       fac = 0.5 ∧ st'.H = 0.5 * st.H ∧ st'.Reject = true ∧ st'.SkipLU = false) := by
  refine ⟨newtonLoop_iters, newtonLoop_conv_le, newtonLoop_convAt, newtonLoop_thetaAbort, ?_⟩
  intro os cfg pr tEnd st st' fac h
  have h' := loopIter_newtonRetry os cfg pr tEnd st st' true fac h
  have hfac := h'.2.2.2.2 rfl
  subst hfac
  exact ⟨rfl, h'.1, h'.2.1, h'.2.2.1⟩

/-- C3 witness: the five conjuncts instantiated on the constant-increment
backend `os1`, where the first Newton retry aborts with `Theta = 1 >= 0.99`
at iteration 1 and the step is retried at half the step size, and on the
trivial backend `os0`, where the loop converges at iteration 0. -/
theorem C3_newton_control_witness :
    itersOf (newtonLoop os0 cfg0 0 0 1 [1] [1] [] [] [] [] 8 [0] [0] [0] 0 0.5 1 0)
      ≤ NewtonMaxit ∧
    (1 : ℚ) * 1e-20 ≤ NewtonTol ∧
    newtonLoop os0 cfg0 0 0 1 [1] [1] [] [] [] [] 8 [0] [0] [0] 0 0.5 1 0 =
      .conv (vmk cfg0.n fun i => vnth [0] i - vnth [0] i)
        (vmk cfg0.n fun i => vnth [0] i - vnth [0] i)
        (vmk cfg0.n fun i => vnth [0] i - vnth [0] i) 1 1e-20 ThetaMin 0 ∧
    newtonLoop os1 cfg0 0 0 1 [1] [1] [] [] [] [] 7 [0] [0] [0] calc1.2.2.2 0.5 1 1 =
      .abortTheta (calc1.2.2.2 / calc1.2.2.2) 0.5 1 1 ∧
    facOf 0 (loopIter os1 cfg0 0 10 stT) = 0.5 ∧
    (stOfIter dummySt (loopIter os1 cfg0 0 10 stT)).H = 0.5 * stT.H := by
  obtain ⟨c1, c2, c3, c4, c5⟩ := C3_newton_control
  have h2 := c2 os0 cfg0 0 0 1 [1] [1] [] [] [] [] 8 [0] [0] [0] 0 0.5 1 0
    [0] [0] [0] 1 1e-20 ThetaMin 0 (by rfl)
  have h3 := c3 os0 cfg0 0 0 1 [1] [1] [] [] [] [] 7 [0] [0] [0] 0 0.5 1 0
    [0] [0] [0] 1e-20 ThetaMin 1 (by rfl) (by rfl) h2
  have h4 := c4 os1 cfg0 0 0 1 [1] [1] [] [] [] [] 6 [0] [0] [0] calc1.2.2.2 0.5 1 1
    calc1.1 calc1.2.1 calc1.2.2.1 calc1.2.2.2 (by rfl) (by decide) (by decide)
  have h5 := c5 os1 cfg0 0 10 stT (stOfIter dummySt (loopIter os1 cfg0 0 10 stT))
    (facOf 0 (loopIter os1 cfg0 0 10 stT)) (by rfl)
  exact ⟨c1 os0 cfg0 0 0 1 [1] [1] [] [] [] [] 8 [0] [0] [0] 0 0.5 1 0 (by decide),
    h2, h3, h4, h5.1, h5.2.1⟩


/-- C4 counterexample: the claim that whenever a step begins with
`skip_lu = true` the retained LU factorization was computed at the current
step size fails on a reachable state: after two accepted steps of
`integrate(0, 1.4e-6, 0, [1])` the loop is still running (a third step begins,
`t + Roundoff < t_end`), `SkipLU` is still true, but the current `H = 4e-7`
differs from the `Hlu = 5e-7` at which `E1`, `E2` were factored — the
end-of-interval contraction `H = t_end - t` changed `H` without clearing
`SkipLU`. -/
theorem C4_lu_reuse_counterexample :
    runLoop os0 cfg0 0 1.4e-6 2 st0 = .running st2 ∧
    st2.SkipLU = true ∧ st2.t + EPS < 1.4e-6 ∧
    st2.Hlu = 5e-7 ∧ st2.H = 4e-7 ∧ st2.H ≠ st2.Hlu := by
  decide

/-- C4 (amended): `skip_lu` is set to true only on an accept away from the
end-of-interval contraction, exactly when `Theta <= ThetaMin = 0.001` and
`Hnew/H ∈ [Qmin, Qmax] = [1.0, 1.2]`, and at that moment `H` is left at the
value at which the retained factorization was computed (fresh in that very
step when the step entered with `skip_lu = false`); the end-of-interval
contraction retains the incoming `skip_lu` (and may change `H`), every other
outcome clears it, and the retained factorization always matches the current
Jacobian while `skip_lu` stays true. -/
theorem C4_lu_reuse :
    (∀ (os : Ors) (cfg : Cfg) (pr tEnd : ℚ) (st st' : St) (inf : AccInfo),
      loopIter os cfg pr tEnd st = .next st' (.acc inf) → inf.endp = false →
      (st'.SkipLU = true ↔ inf.theta ≤ ThetaMin ∧ Qmin ≤ inf.hq ∧ inf.hq ≤ Qmax)) ∧
    (∀ (os : Ors) (cfg : Cfg) (pr tEnd : ℚ) (st st' : St) (inf : AccInfo),
      loopIter os cfg pr tEnd st = .next st' (.acc inf) → inf.endp = true →
      st'.SkipLU = st.SkipLU) ∧
    (∀ (os : Ors) (cfg : Cfg) (pr tEnd : ℚ) (st st' : St) (inf : AccInfo),
      loopIter os cfg pr tEnd st = .next st' (.acc inf) → inf.endp = false →
      st'.SkipLU = true →
      st'.H = st.H ∧ (st.SkipLU = false → st'.Hlu = st'.H ∧ st'.Alu = st'.A)) ∧
    (∀ (os : Ors) (cfg : Cfg) (pr tEnd : ℚ) (st st' : St) (o : Outc),
      loopIter os cfg pr tEnd st = .next st' o → (∀ inf, o ≠ .acc inf) →
      st'.SkipLU = false) ∧
    (∀ (os : Ors) (cfg : Cfg) (pr tEnd : ℚ) (st st' : St) (o : Outc),
      loopIter os cfg pr tEnd st = .next st' o → (st.SkipLU = true → st.Alu = st.A) →
      st'.SkipLU = true → st'.Alu = st'.A) := by
  refine ⟨?_, ?_, ?_, ?_, ?_⟩
  · intro os cfg pr tEnd st st' inf h hep
    obtain ⟨st1, rate, th, incr, nI, Z1, Z2, Z3, hlu, hnewt, hpa⟩ :=
      loopIter_acc os cfg pr tEnd st st' inf h
    obtain ⟨_, _, _, _, _, _, _, hth, _, _, _, _, _, _, _, hend⟩ :=
      postAccept_acc _ _ _ _ _ _ _ _ _ _ _ _ _ _ hpa
    rw [(hend hep).1, hth]
    simp [Bool.and_eq_true, decide_eq_true_eq, and_assoc]
  · intro os cfg pr tEnd st st' inf h hep
    obtain ⟨st1, rate, th, incr, nI, Z1, Z2, Z3, hlu, hnewt, hpa⟩ :=
      loopIter_acc os cfg pr tEnd st st' inf h
    obtain ⟨_, _, _, _, _, _, _, _, _, _, _, _, _, _, hend, _⟩ :=
      postAccept_acc _ _ _ _ _ _ _ _ _ _ _ _ _ _ hpa
    rw [(hend hep).1, (luPhase_frame _ _ _ _ _ _ hlu).2.2.2.2.2.2.2.2.1]
  · intro os cfg pr tEnd st st' inf h hep hsk
    obtain ⟨st1, rate, th, incr, nI, Z1, Z2, Z3, hlu, hnewt, hpa⟩ :=
      loopIter_acc os cfg pr tEnd st st' inf h
    obtain ⟨_, _, _, _, _, _, _, _, hA, hAlu, hHlu, _, _, _, _, hend⟩ :=
      postAccept_acc _ _ _ _ _ _ _ _ _ _ _ _ _ _ hpa
    have hH := (hend hep).2 hsk
    refine ⟨by rw [hH, (luPhase_frame _ _ _ _ _ _ hlu).2.1], ?_⟩
    intro hf
    have hfr := luPhase_fresh _ _ _ _ _ _ hf hlu
    exact ⟨by rw [hHlu, hfr.1, ← hH], by rw [hAlu, hfr.2, hA]⟩
  · intro os cfg pr tEnd st st' o h hna
    exact (loopIter_nonacc os cfg pr tEnd st st' o h hna).1
  · intro os cfg pr tEnd st st' o h hInv hsk
    cases o with
    | acc inf =>
      obtain ⟨st1, rate, th, incr, nI, Z1, Z2, Z3, hlu, hnewt, hpa⟩ :=
        loopIter_acc os cfg pr tEnd st st' inf h
      obtain ⟨_, _, _, _, _, _, _, _, hA, hAlu, _, _, _, _, _, _⟩ :=
        postAccept_acc _ _ _ _ _ _ _ _ _ _ _ _ _ _ hpa
      rw [hA, hAlu]
      cases hsl : st.SkipLU with
      | true =>
        have hskp := luPhase_skip _ _ _ _ _ _ hsl hlu
        rw [hskp.2.1, hskp.1, hInv hsl]
      | false =>
        exact (luPhase_fresh _ _ _ _ _ _ hsl hlu).2
    | rej =>
      have := (loopIter_nonacc os cfg pr tEnd st st' _ h (fun inf hc => nomatch hc)).1
      rw [this] at hsk
      exact nomatch hsk
    | luRetry =>
      have := (loopIter_nonacc os cfg pr tEnd st st' _ h (fun inf hc => nomatch hc)).1
      rw [this] at hsk
      exact nomatch hsk
    | newtonRetry b f =>
      have := (loopIter_nonacc os cfg pr tEnd st st' _ h (fun inf hc => nomatch hc)).1
      rw [this] at hsk
      exact nomatch hsk

/-- C4 witness: at the first accepted step of the trivial trace the `skip_lu`
decision fires with `Theta = 0.001` and `Hratio = 1.125`, `H` is unchanged,
and the retained factorization is the fresh one at the current `H` and `J`. -/
theorem C4_lu_reuse_witness :
    (infA.theta ≤ ThetaMin ∧ Qmin ≤ infA.hq ∧ infA.hq ≤ Qmax) ∧
    stA.H = st0.H ∧ stA.Hlu = stA.H ∧ stA.Alu = stA.A := by
  obtain ⟨c1, c2, c3, c4, c5⟩ := C4_lu_reuse
  have h1 := (c1 os0 cfg0 0 1.4e-6 st0 stA infA rfl rfl).mp (by decide)
  have h3 := c3 os0 cfg0 0 1.4e-6 st0 stA infA rfl rfl (by decide)
  exact ⟨h1, h3.1, (h3.2 rfl).1, (h3.2 rfl).2⟩

end Radau2a
